import Mathlib

/-!
Verification development for `docetl/operations/map.py` (MapOperation and
ParallelMapOperation).

Records are Python dicts, embedded as association lists `List (String × V)`
over an abstract value type `V`; insertion order is significant, matching
Python dict semantics.  Monetary costs (Python floats summed by the
orchestrating loops) are embedded as rationals.  External collaborators
(the LLM invoker `runner.api.call_llm` / `call_llm_batch`, the response
parsing `parse_llm_response`, Jinja rendering `strict_render`, and the PDF
fetch) are modelled as oracle functions whose outcomes are `Except`
values; an `Except.error` models the Python call raising.
-/

/-- A Python dict: association list keyed by strings, in insertion order. -/
abbrev Dict (V : Type) := List (String × V)

/-- Python dict lookup `d[k]` / `d.get(k)`: first (unique) occurrence of `k`. -/
def dictGet {V : Type} (d : Dict V) (k : String) : Option V :=
  match d with
  | [] => none
  | (k2, v) :: rest => if k2 = k then some v else dictGet rest k

/-- Python `d[k] = v`: replace the value at `k` in place if present
(keeping its position), else append the new pair at the end. -/
def dictSet {V : Type} (d : Dict V) (k : String) (v : V) : Dict V :=
  match d with
  | [] => [(k, v)]
  | (k2, v2) :: rest =>
    if k2 = k then (k, v) :: rest else (k2, v2) :: dictSet rest k v

/-- Python `d.update(o)` and the merge `{**d, **o}`: fold every pair of `o`
into `d` via `dictSet`, in order, so later pairs win. -/
def dictUpdate {V : Type} (d o : Dict V) : Dict V :=
  o.foldl (fun acc kv => dictSet acc kv.1 kv.2) d

/-- The comprehension `{k: v for k, v in item.items() if k not in drop_keys}`
(map.py lines 272-274, 523-530, 671-673). -/
def dictDropKeys {V : Type} (d : Dict V) (ks : List String) : Dict V :=
  d.filter (fun kv => !(ks.contains kv.1))

/-- Python `item.pop(key, None)` (map.py line 790): remove the key if present. -/
def dictPop {V : Type} (d : Dict V) (k : String) : Dict V :=
  d.filter (fun kv => kv.1 != k)

/-- Exceptions the embedded code can raise. `cancelled` stands for
`asyncio.CancelledError`, which in Python is a `BaseException` and hence is
NOT caught by the `except Exception` blocks guarding `skip_on_error`. -/
inductive Err where
  | valueError
  | keyError
  | cancelled
  | parseErr
  | renderErr
  | fetchErr
  | otherErr
deriving DecidableEq, Repr

/-- The message content handed to the model invoker: plain text, or text
with a base64 PDF attachment prepended (map.py lines 305, 324-327). -/
inductive Msg where
  | text (s : String)
  | withPdf (pdfData : String) (s : String)
deriving DecidableEq, Repr

/-- One model invocation that was actually issued (reached `call_llm` /
`call_llm_batch` and the call returned or raised).  `cost` is
`llm_result.total_cost` when the call returned, `none` when it raised. -/
structure Issued where
  kind : String
  cost : Option ℚ
deriving DecidableEq, Repr

/-- Sum of the known costs in an invocation trace. -/
def traceCost (t : List Issued) : ℚ :=
  (t.map (fun i => i.cost.getD 0)).sum

/-- Outcome of a returned `call_llm` for one map item: the `validated` flag
and `total_cost` reported by the invoker, plus the outcome of the later
`parse_llm_response` on `llm_result.response` (map.py lines 387-402); the
parse is consulted only when `validated` holds, and may itself raise. -/
structure ItemCallResult (V : Type) where
  validated : Bool
  cost : ℚ
  parsedOutputs : Except Err (List (Dict V))
deriving Repr

/-- Outcome of a returned `call_llm_batch`: its `total_cost` plus the
outcome of parsing its response into the per-item `results` list
(map.py lines 443-454). -/
structure BatchCallResult (V : Type) where
  cost : ℚ
  parsed : Except Err (List (Dict V))
deriving Repr

/-- Oracle for the external collaborators used by `MapOperation`. -/
structure MapOracle (V : Type) where
  /-- `strict_render(template, {"input": item})` (map.py line 304). -/
  render : String → Dict V → Except Err String
  /-- `strict_render(batch_prompt, {"inputs": items})` (map.py line 423). -/
  renderBatch : String → List (Dict V) → Except Err String
  /-- download + base64-encode of the PDF referenced by the item
  (map.py lines 316-322); input is the value found at `pdf_url_key`. -/
  fetchPdf : V → Except Err String
  /-- `call_llm` for one map item (map.py lines 359-385), keyed by the
  message and the `initial_result` carried from the batch call. -/
  itemCall : Msg → Option (Dict V) → Except Err (ItemCallResult V)
  /-- `call_llm_batch` (map.py lines 428-442), keyed by the rendered
  batch prompt. -/
  batchCall : String → Except Err (BatchCallResult V)
  /-- the observability payload `{"prompt": prompt}` written at
  `_observability_<name>` (map.py lines 406-410), as an opaque value. -/
  obsVal : String → V

/-- Oracle for `_generate_calibration_context` (map.py lines 67-161).
`sampleResults` is the recursive `self.execute(calibration_sample)` at line
99 (whose cost the code discards); `callResult` is the calibration
`call_llm` at line 135: the outer `Except` is the call raising, the
`Option` is `hasattr(llm_result, "response")` (line 148), and the inner
`Except Err String` is the `parse_llm_response(...)[0].get("calibration_context", "")`
at lines 149-153, which can itself raise. -/
structure CalOracle (V : Type) where
  sampleResults : Except Err (List (Dict V))
  callResult : Except Err (Option (Except Err String))

/-- The configuration keys of `MapOperation` consulted by `execute`.
`prompt`/`dropKeys`/`batchPrompt`/`pdfUrlKey` model presence of the raw
config keys; `flushPartialResult` is the field declared by the pydantic
schema at map.py line 45, while `flushPartialResults` is the distinct raw
key `"flush_partial_results"` that `execute` actually reads at line 533. -/
structure MapConfig where
  prompt : Option String
  dropKeys : Option (List String)
  batchPrompt : Option String
  pdfUrlKey : Option String
  skipOnError : Bool
  flushPartialResult : Bool
  flushPartialResults : Bool
  enableObservability : Bool
  calibrate : Bool
  name : String
  maxBatchSize : Option Nat
deriving Repr

/-- Execution environment of one `MapOperation.execute` run: configuration,
external-call oracle, calibration oracle, and the shared runner
cancellation flag `self.runner.is_cancelled` (map.py line 357). -/
structure MapEnv (V : Type) where
  cfg : MapConfig
  oracle : MapOracle V
  cal : CalOracle V
  isCancelled : Bool

/-- `_generate_calibration_context` (map.py lines 97-161): run the map on
the sample (a raise propagates), issue the calibration call (a raise
propagates), then extract the context: `""` when the result has no
`response` attribute, else the parsed `calibration_context` (a parse raise
propagates). -/
def genCalibrationContext {V : Type} (c : CalOracle V) : Except Err String :=
  match c.sampleResults with
  | .error e => .error e
  | .ok _ =>
    match c.callResult with
    | .error e => .error e
    | .ok none => .ok ""
    | .ok (some p) => p

/-- Message construction in `_process_map_item` (map.py lines 305-327):
if `pdf_url_key` is truthy, look it up in the item (`KeyError` is re-raised
as `ValueError`, lines 309-313), fetch and attach the PDF; else plain text. -/
def buildMapMsg {V : Type} (env : MapEnv V) (item : Dict V) (prompt : String) :
    Except Err Msg :=
  match env.cfg.pdfUrlKey with
  | none => .ok (.text prompt)
  | some k =>
    if k = "" then .ok (.text prompt)
    else
      match dictGet item k with
      | none => .error .valueError
      | some url =>
        match env.oracle.fetchPdf url with
        | .error e => .error e
        | .ok dat => .ok (.withPdf dat prompt)

/-- `_process_map_item` (map.py lines 300-413).  `wp` is the working value
of `self.config["prompt"]` (`none` models the key being absent, a
`KeyError`).  Returns the Python return value (`None` or the merged output
records, plus `llm_result.total_cost`) or the exception raised, together
with the trace of invocations issued.  The cancellation flag is polled
after rendering and before `call_llm` (line 357). -/
def processMapItem {V : Type} (env : MapEnv V) (wp : Option String)
    (item : Dict V) (initRes : Option (Dict V)) :
    (Except Err (Option (List (Dict V)) × ℚ)) × List Issued :=
  match wp with
  | none => (.error .keyError, [])
  | some tpl =>
    match env.oracle.render tpl item with
    | .error e => (.error e, [])
    | .ok prompt =>
      match buildMapMsg env item prompt with
      | .error e => (.error e, [])
      | .ok msg =>
        if env.isCancelled then (.error .cancelled, [])
        else
          match env.oracle.itemCall msg initRes with
          | .error e => (.error e, [⟨"map", none⟩])
          | .ok r =>
            if r.validated then
              match r.parsedOutputs with
              | .error e => (.error e, [⟨"map", some r.cost⟩])
              | .ok outs =>
                let merged := outs.map (fun o => dictUpdate item o)
                let merged :=
                  if env.cfg.enableObservability then
                    merged.map (fun o =>
                      dictSet o ("_observability_" ++ env.cfg.name)
                        (env.oracle.obsVal prompt))
                  else merged
                (.ok (some merged, r.cost), [⟨"map", some r.cost⟩])
            else (.ok (none, r.cost), [⟨"map", some r.cost⟩])

/-- The future-consumption loop over the items of one batch (map.py lines
462-502): futures are pulled positionally, each item's records are
appended and its cost added; an exception from an item is swallowed
(`continue`) when `skip_on_error` is set — except `asyncio.CancelledError`,
which is a `BaseException` and escapes the `except Exception` handler —
otherwise it propagates, aborting the batch. -/
def processItems {V : Type} (env : MapEnv V) (wp : Option String) :
    List (Dict V × Option (Dict V)) →
    (Except Err (List (Dict V) × ℚ)) × List Issued
  | [] => (.ok ([], 0), [])
  | (item, initRes) :: rest =>
    let pr := processMapItem env wp item initRes
    match pr.1 with
    | .ok (some outs, c) =>
      let nxt := processItems env wp rest
      (match nxt.1 with
       | .ok (rs, tc) => .ok (outs ++ rs, c + tc)
       | .error e => .error e, pr.2 ++ nxt.2)
    | .ok (none, c) =>
      let nxt := processItems env wp rest
      (match nxt.1 with
       | .ok (rs, tc) => .ok (rs, c + tc)
       | .error e => .error e, pr.2 ++ nxt.2)
    | .error e =>
      if env.cfg.skipOnError ∧ e ≠ Err.cancelled then
        let nxt := processItems env wp rest
        (nxt.1, pr.2 ++ nxt.2)
      else (.error e, pr.2)

/-- `_process_map_batch` (map.py lines 416-504).  When the batch has more
than one item and a truthy `batch_prompt` is configured: a configured
`pdf_url_key` raises `ValueError` before any call (lines 419-421);
otherwise render the batch prompt, issue the batch call, add its cost,
parse its response into the per-item list, and pair item `idx` with
`parsed_output[idx] if idx < len(parsed_output) else None` (line 456).
Otherwise every item is paired with `None`.  Then the items are processed
as in `processItems`. -/
def processMapBatch {V : Type} (env : MapEnv V) (wp : Option String)
    (items : List (Dict V)) :
    (Except Err (List (Dict V) × ℚ)) × List Issued :=
  match env.cfg.batchPrompt with
  | some bp =>
    if 1 < items.length ∧ bp ≠ "" then
      if env.cfg.pdfUrlKey.isSome ∧ env.cfg.pdfUrlKey ≠ some "" then
        (.error .valueError, [])
      else
        match env.oracle.renderBatch bp items with
        | .error e => (.error e, [])
        | .ok bprompt =>
          match env.oracle.batchCall bprompt with
          | .error e => (.error e, [⟨"batch map", none⟩])
          | .ok br =>
            match br.parsed with
            | .error e => (.error e, [⟨"batch map", some br.cost⟩])
            | .ok parsed =>
              let pairs := items.enum.map (fun p => (p.2, parsed.get? p.1))
              let pr := processItems env wp pairs
              (match pr.1 with
               | .ok (allr, tc) => .ok (allr, br.cost + tc)
               | .error e => .error e,
               ⟨"batch map", some br.cost⟩ :: pr.2)
    else processItems env wp (items.map (fun it => (it, none)))
  | none => processItems env wp (items.map (fun it => (it, none)))

/-- The batch partition `input_data[i : i + batch_size]` for
`i in range(0, len(input_data), batch_size)` (map.py lines 509-510),
with `batch_size ≥ 1`. -/
def batchesOf {α : Type} (bs : Nat) (l : List α) : List (List α) :=
  (List.range ((l.length + bs - 1) / bs)).map
    (fun i => (l.drop (i * bs)).take bs)

/-- What one `MapOperation.execute` run produces: the Python return value
(or the exception that aborted it), the trace of model invocations issued,
and the sequence of `_flush_partial_results` side effects (batch index and
flushed records) that happened before any abort. -/
structure ExecOut (V : Type) where
  result : Except Err (List (Dict V) × ℚ)
  issued : List Issued
  flushes : List (Nat × List (Dict V))

/-- The batch-consumption loop of `MapOperation.execute` (map.py lines
512-539): batch futures are consumed strictly in submission order; for a
nonempty result list, `drop_keys` is applied, the records are appended to
the running output, and — only when the raw config key
`"flush_partial_results"` is truthy — the post-drop records are handed to
`self.runner._flush_partial_results(op_name, batch_index, result_list)`;
the batch cost is always added.  A batch exception propagates. -/
def runBatches {V : Type} (env : MapEnv V) (wp : Option String) :
    Nat → List (List (Dict V)) → ExecOut V
  | _, [] => ⟨.ok ([], 0), [], []⟩
  | idx, b :: rest =>
    let pr := processMapBatch env wp b
    match pr.1 with
    | .error e => ⟨.error e, pr.2, []⟩
    | .ok (rlist, c) =>
      let dropped :=
        match env.cfg.dropKeys with
        | some dks => rlist.map (fun r => dictDropKeys r dks)
        | none => rlist
      let fl :=
        if !rlist.isEmpty && env.cfg.flushPartialResults then [(idx, dropped)]
        else []
      let nxt := runBatches env wp (idx + 1) rest
      ⟨(match nxt.result with
        | .ok (rs, tc) => .ok (dropped ++ rs, c + tc)
        | .error e => .error e),
       pr.2 ++ nxt.issued, fl ++ nxt.flushes⟩

/-- `MapOperation.execute` after the drop-only fast path (map.py lines
278-544): run calibration when `calibrate` is set and a prompt exists (a
raise aborts the run), augment the working prompt when the context is
nonempty (lines 282-288), then partition into batches of
`max_batch_size or 1` (line 507) and consume them in order. -/
def mapExecuteMain {V : Type} (env : MapEnv V) (input : List (Dict V)) :
    ExecOut V :=
  match (if env.cfg.calibrate && env.cfg.prompt.isSome then
      genCalibrationContext env.cal
    else .ok "") with
  | .error e => ⟨.error e, [], []⟩
  | .ok ctx =>
    let wp := env.cfg.prompt.map (fun p =>
      if ctx = "" then p else p ++ "\n\n" ++ ctx)
    runBatches env wp 0 (batchesOf (env.cfg.maxBatchSize.getD 1) input)

/-- `MapOperation.execute` (map.py lines 247-544).  The drop-only fast
path (lines 267-276) fires when `"prompt"` is absent and `"drop_keys"`
present: each record is rebuilt without the dropped keys, order preserved,
cost `0.0`, no model call and no flush. -/
def mapExecute {V : Type} (env : MapEnv V) (input : List (Dict V)) :
    ExecOut V :=
  match env.cfg.prompt, env.cfg.dropKeys with
  | none, some dks =>
    ⟨.ok (input.map (fun it => dictDropKeys it dks), 0), [], []⟩
  | none, none => mapExecuteMain env input
  | some _, _ => mapExecuteMain env input

/-- One facet of a parallel-map configuration: an entry of the `prompts`
list (map.py lines 550, 592-614), reduced to the fields `execute` reads. -/
structure FacetConfig where
  prompt : String
  outputKeys : List String
deriving DecidableEq, Repr

/-- Outcome of a returned facet `call_llm` (map.py lines 714-728): its
`total_cost` plus the outcome of `parse_llm_response(response.response, ...)[0]`
(lines 733-739), which can itself raise. -/
structure FacetCallResult (V : Type) where
  cost : ℚ
  parsed : Except Err (Dict V)
deriving Repr

/-- Oracle for the external collaborators used by `ParallelMapOperation`.
`facetCall` is keyed by the message and the facet's position in the
`prompts` list (facets may override model/tools/gleaning per position). -/
structure PMapOracle (V : Type) where
  render : String → Dict V → Except Err String
  fetchPdf : V → Except Err String
  facetCall : Msg → Nat → Except Err (FacetCallResult V)
  /-- the empty observability bucket `{}` created at map.py line 774. -/
  obsEmpty : V
  /-- the bucket update `bucket.update({f"prompt_{prompt_index}": prompt})`
  at map.py lines 775-777, as an opaque operation on the bucket value. -/
  obsAdd : V → Nat → String → V

/-- The configuration keys of `ParallelMapOperation` consulted by
`execute` (map.py lines 548-553, 662-796). -/
structure PMapConfig where
  prompts : Option (List FacetConfig)
  dropKeys : Option (List String)
  pdfUrlKey : Option String
  enableObservability : Bool
  name : String
deriving Repr

/-- Execution environment of one `ParallelMapOperation.execute` run.
`isCancelled` is the shared runner flag `self.runner.is_cancelled`; note
that no code in `ParallelMapOperation.execute` or its `process_prompt`
(map.py lines 680-740) ever reads it — the field is carried here to state
that fact. -/
structure PMapEnv (V : Type) where
  cfg : PMapConfig
  oracle : PMapOracle V
  isCancelled : Bool

/-- Message construction in `process_prompt` (map.py lines 682-702),
identical in shape to the map item's. -/
def buildPMapMsg {V : Type} (env : PMapEnv V) (item : Dict V)
    (prompt : String) : Except Err Msg :=
  match env.cfg.pdfUrlKey with
  | none => .ok (.text prompt)
  | some k =>
    if k = "" then .ok (.text prompt)
    else
      match dictGet item k with
      | none => .error .valueError
      | some url =>
        match env.oracle.fetchPdf url with
        | .error e => .error e
        | .ok dat => .ok (.withPdf dat prompt)

/-- `process_prompt` (map.py lines 680-740): render the facet template,
attach the PDF if configured, issue the facet call, parse its response,
and return `(output, prompt, response.total_cost)`.  There is no
cancellation poll anywhere on this path. -/
def processPrompt {V : Type} (env : PMapEnv V) (item : Dict V) (pIdx : Nat)
    (pc : FacetConfig) :
    (Except Err (Dict V × String × ℚ)) × List Issued :=
  match env.oracle.render pc.prompt item with
  | .error e => (.error e, [])
  | .ok prompt =>
    match buildPMapMsg env item prompt with
    | .error e => (.error e, [])
    | .ok msg =>
      match env.oracle.facetCall msg pIdx with
      | .error e => (.error e, [⟨"parallel_map", none⟩])
      | .ok r =>
        match r.parsed with
        | .error e => (.error e, [⟨"parallel_map", some r.cost⟩])
        | .ok out => (.ok (out, prompt, r.cost), [⟨"parallel_map", some r.cost⟩])

/-- The facet futures of one record, consumed in facet order (map.py lines
752-780 restricted to one `item_index`; future `i` corresponds to
`(item_index, prompt_index) = (i / f, i % f)` and futures are consumed in
increasing `i`, so the facets of a record form a contiguous run in facet
order).  `acc` is the working record, initialized by the caller to the
record copy made at `prompt_index == 0` (line 766).  For each facet: add
its cost, update the observability bucket when enabled (lines 772-777),
then `item_result.update(output)` (line 780).  An exception from a facet
future propagates — nothing catches it. -/
def runFacets {V : Type} (env : PMapEnv V) (item : Dict V) :
    List (Nat × FacetConfig) → Dict V →
    (Except Err (Dict V × ℚ)) × List Issued
  | [], acc => (.ok (acc, 0), [])
  | (pIdx, pc) :: rest, acc =>
    let pr := processPrompt env item pIdx pc
    match pr.1 with
    | .error e => (.error e, pr.2)
    | .ok (out, prompt, c) =>
      let acc2 :=
        if env.cfg.enableObservability then
          let key := "_observability_" ++ env.cfg.name
          let bucket := (dictGet acc key).getD env.oracle.obsEmpty
          dictSet acc key (env.oracle.obsAdd bucket pIdx prompt)
        else acc
      let acc3 := dictUpdate acc2 out
      let nxt := runFacets env item rest acc3
      (match nxt.1 with
       | .ok (d, tc) => .ok (d, c + tc)
       | .error e => .error e, pr.2 ++ nxt.2)

/-- The full future-consumption loop (map.py lines 744-780) over all
records: record-major, facet-minor order; each record's working copy is
initialized from the source record at its first facet and ends up in
`results[item_index]`. -/
def runPMapItems {V : Type} (env : PMapEnv V) (pcs : List FacetConfig) :
    List (Dict V) → (Except Err (List (Dict V) × ℚ)) × List Issued
  | [] => (.ok ([], 0), [])
  | item :: rest =>
    let pr := runFacets env item pcs.enum item
    match pr.1 with
    | .error e => (.error e, pr.2)
    | .ok (d, c) =>
      let nxt := runPMapItems env pcs rest
      (match nxt.1 with
       | .ok (ds, tc) => .ok (d :: ds, c + tc)
       | .error e => .error e, pr.2 ++ nxt.2)

/-- `ParallelMapOperation.execute` (map.py lines 645-796).  The drop-only
fast path (lines 667-675) fires when `"prompts"` is absent and
`"drop_keys"` present.  With `"prompts"` absent and no `drop_keys`, the
records are returned as copies (line 783).  With a `prompts` list, each
record yields one merged output record (every record is initialized at
`prompt_index == 0` since the facet list is nonempty); `drop_keys` is then
popped from every merged record (lines 786-790) and the records are
returned in input order (line 796).  An empty `prompts` list yields no
futures, an empty `results` dict, and an empty output. -/
def pmapExecute {V : Type} (env : PMapEnv V) (input : List (Dict V)) :
    (Except Err (List (Dict V) × ℚ)) × List Issued :=
  match env.cfg.prompts with
  | none =>
    match env.cfg.dropKeys with
    | some dks =>
      (.ok (input.map (fun it => dictDropKeys it dks), 0), [])
    | none => (.ok (input, 0), [])
  | some pcs =>
    if pcs.isEmpty then (.ok ([], 0), [])
    else
      let pr := runPMapItems env pcs input
      match pr.1 with
      | .error e => (.error e, pr.2)
      | .ok (ds, c) =>
        let ds2 :=
          match env.cfg.dropKeys with
          | some dks => ds.map (fun d => dks.foldl (fun d2 k => dictPop d2 k) d)
          | none => ds
        (.ok (ds2, c), pr.2)

/-- A raw entry of the `prompts` list as `syntax_check` sees it (map.py
lines 592-631): the two required keys may be absent, and the Jinja
`Template(prompt)` construction (lines 618-623) is an external check
recorded as a flag. -/
structure RawFacet where
  prompt : Option String
  outputKeys : Option (List String)
  templateValid : Bool
deriving DecidableEq, Repr

/-- The raw configuration that `ParallelMapOperation.syntax_check`
inspects: presence of `drop_keys` and `prompts`, and the key set of
`self.config["output"]["schema"]` (map.py line 634). -/
structure PMapRawConfig where
  dropKeys : Option (List String)
  prompts : Option (List RawFacet)
  outputSchemaKeys : List String
deriving Repr

/-- The per-facet checks of `syntax_check` (map.py lines 592-631, one
iteration): required keys `prompt` and `output_keys` present, `output_keys`
nonempty, and the prompt a valid Jinja template.  (The `isinstance` checks
are vacuous in this typed embedding.) -/
def checkFacet (f : RawFacet) : Except Err Unit :=
  match f.prompt with
  | none => .error .valueError
  | some _ =>
    match f.outputKeys with
    | none => .error .valueError
    | some ks =>
      if ks.isEmpty then .error .valueError
      else if f.templateValid then .ok ()
      else .error .valueError

/-- The loop over all facets (map.py lines 592-631). -/
def checkFacets : List RawFacet → Except Err Unit
  | [] => .ok ()
  | f :: rest =>
    match checkFacet f with
    | .error e => .error e
    | .ok () => checkFacets rest

/-- `output_keys_covered` (map.py lines 635-637): the union, as a list, of
every facet's `output_keys`. -/
def coveredKeys (fs : List RawFacet) : List String :=
  fs.foldl (fun acc f => acc ++ f.outputKeys.getD []) []

/-- `ParallelMapOperation.syntax_check` (map.py lines 562-643): a present
`drop_keys` passes its type checks; with neither `drop_keys` nor `prompts`
it raises; a present `prompts` list must be nonempty, every facet must
pass its checks, and finally `missing_keys = set(schema) - covered` must
be empty (lines 639-643).  Note the final check only requires the schema
keys to be covered — facet output keys outside the schema are accepted. -/
def syntaxCheckPM (c : PMapRawConfig) : Except Err Unit :=
  match c.prompts with
  | none => if c.dropKeys.isSome then .ok () else .error .valueError
  | some fs =>
    if fs.isEmpty then .error .valueError
    else
      match checkFacets fs with
      | .error e => .error e
      | .ok () =>
        if c.outputSchemaKeys.any (fun k => !((coveredKeys fs).contains k)) then
          .error .valueError
        else .ok ()

/-!
Heap model for the frame claim: Python dicts are heap cells, addresses are
indices into a store.  The three record-constructing sites of map.py are
embedded as heap transformers so that "the input records are never written
to" is a real statement about aliasing rather than a vacuity of the pure
embedding.
-/

/-- A store of dict cells; an address is an index. -/
abbrev Heap (V : Type) := List (Dict V)

/-- Read the dict at address `a`. -/
def heapRead {V : Type} (h : Heap V) (a : Nat) : Dict V :=
  (h.get? a).getD []

/-- Overwrite the dict at address `a` (in-place Python mutation). -/
def heapWrite {V : Type} (h : Heap V) (a : Nat) (d : Dict V) : Heap V :=
  h.set a d

/-- Allocate a fresh dict, returning its address. -/
def heapAlloc {V : Type} (h : Heap V) (d : Dict V) : Heap V × Nat :=
  (h ++ [d], h.length)

/-- One iteration of the merge loop of `_process_map_item` (map.py lines
404-410): allocate the fresh dict `{**item, **output}` — reading the item
at address `a`, never writing it — and, when observability is on, write
the observability entry into that fresh dict. -/
def heapMergeStep {V : Type} (a : Nat) (obsKV : Option (String × V))
    (h : Heap V) (o : Dict V) : Heap V :=
  match obsKV with
  | some kv =>
    heapWrite (heapAlloc h (dictUpdate (heapRead h a) o)).1
      (heapAlloc h (dictUpdate (heapRead h a) o)).2
      (dictSet
        (heapRead (heapAlloc h (dictUpdate (heapRead h a) o)).1
          (heapAlloc h (dictUpdate (heapRead h a) o)).2) kv.1 kv.2)
  | none => (heapAlloc h (dictUpdate (heapRead h a) o)).1

/-- The merge loop of `_process_map_item` (map.py lines 404-410) over all
parsed outputs; returns the addresses of the fresh merged dicts (each
iteration allocates at the current heap end, address `h.length`). -/
def heapMergeOutputs {V : Type} (a : Nat) (obsKV : Option (String × V)) :
    Heap V → List (Dict V) → Heap V × List Nat
  | h, [] => (h, [])
  | h, o :: rest =>
    let nxt := heapMergeOutputs a obsKV (heapMergeStep a obsKV h o) rest
    (nxt.1, h.length :: nxt.2)

/-- The drop comprehensions (map.py lines 270-276 and 522-530): each
record at an input address is read and a fresh dict without the dropped
keys is allocated; the source cell is never written. -/
def heapDropResults {V : Type} (dks : List String) :
    Heap V → List Nat → Heap V × List Nat
  | h, [] => (h, [])
  | h, a :: rest =>
    let hb := heapAlloc h (dictDropKeys (heapRead h a) dks)
    let nxt := heapDropResults dks hb.1 rest
    (nxt.1, hb.2 :: nxt.2)

/-- One record of `ParallelMapOperation.execute` (map.py lines 764-790):
`input_data[item_index].copy()` allocates a fresh cell from the source at
address `a`; every `item_result.update(output)` and every
`item.pop(key, None)` writes that fresh cell only. -/
def heapParallelItem {V : Type} (h : Heap V) (a : Nat) (outs : List (Dict V))
    (dks : List String) : Heap V × Nat :=
  let hb := heapAlloc h (heapRead h a)
  let h2 := outs.foldl
    (fun hh o => heapWrite hh hb.2 (dictUpdate (heapRead hh hb.2) o)) hb.1
  let h3 := dks.foldl
    (fun hh k => heapWrite hh hb.2 (dictPop (heapRead hh hb.2) k)) h2
  (h3, hb.2)

/-- The per-facet output extracted from `process_prompt`'s result, when it
succeeded. -/
def facetOutput {V : Type} (env : PMapEnv V) (item : Dict V) (i : Nat)
    (pc : FacetConfig) : Option (Dict V) :=
  match (processPrompt env item i pc).1 with
  | .ok (o, _, _) => some o
  | .error _ => none

/-- The successful facet outputs of one record, in facet (submission)
order. -/
def facetOutputs {V : Type} (env : PMapEnv V) (item : Dict V)
    (pcs : List FacetConfig) : List (Dict V) :=
  pcs.enum.filterMap (fun p => facetOutput env item p.1 p.2)

/-- Last-writer-wins lookup: the value of `k` contributed by the latest
facet output containing `k`, defaulting to the base record's value. -/
def lwGet {V : Type} (base : Dict V) (os : List (Dict V)) (k : String) :
    Option V :=
  os.foldl
    (fun r o => match dictGet o k with | some v => some v | none => r)
    (dictGet base k)

/-!  Concrete fixtures used by the witness theorems (value type `Nat`). -/

/-- A benign oracle: rendering echoes the template, every item call
returns validated output `[{"a": 1}]` at cost 3. -/
def wOracle : MapOracle Nat :=
  { render := fun t _ => .ok t
    renderBatch := fun t _ => .ok t
    fetchPdf := fun _ => .ok "pdfdata"
    itemCall := fun _ _ => .ok ⟨true, 3, .ok [[("a", 1)]]⟩
    batchCall := fun _ => .ok ⟨2, .ok []⟩
    obsVal := fun _ => 0 }

/-- A calibration oracle whose call result has no usable text. -/
def wCal : CalOracle Nat := ⟨.ok [], .ok none⟩

/-- Baseline single-prompt map configuration. -/
def wCfg : MapConfig :=
  { prompt := some "p", dropKeys := none, batchPrompt := none,
    pdfUrlKey := none, skipOnError := false, flushPartialResult := false,
    flushPartialResults := false, enableObservability := false,
    calibrate := false, name := "op", maxBatchSize := none }

/-- Baseline map environment. -/
def wEnv : MapEnv Nat := ⟨wCfg, wOracle, wCal, false⟩

/-- Environment for the cost counterexample: `skip_on_error` set, and the
single item call returns validated at cost 5 but its response then fails
to parse (`parse_llm_response` raises at map.py line 394). -/
def wEnvSkipParse : MapEnv Nat :=
  ⟨{ wCfg with skipOnError := true },
   { wOracle with itemCall := fun _ _ => .ok ⟨true, 5, .error .parseErr⟩ },
   wCal, false⟩

/-- Environment whose calibration pass raises (the recursive sample run
at map.py line 99 throws). -/
def wEnvCalRaise : MapEnv Nat :=
  ⟨{ wCfg with calibrate := true }, wOracle,
   ⟨.error .otherErr, .ok none⟩, false⟩

/-- Environment with calibration enabled whose calibration call yields no
usable text. -/
def wEnvCalNoText : MapEnv Nat :=
  ⟨{ wCfg with calibrate := true }, wOracle, wCal, false⟩

/-- Drop-only map environment (no prompt, `drop_keys = ["b"]`). -/
def wEnvDrop : MapEnv Nat :=
  ⟨{ wCfg with prompt := none, dropKeys := some ["b"] }, wOracle, wCal, false⟩

/-- Map environment with the schema flag `flush_partial_result` set (and
the raw key `"flush_partial_results"` absent, hence falsy). -/
def wEnvFlush : MapEnv Nat :=
  ⟨{ wCfg with flushPartialResult := true }, wOracle, wCal, false⟩

/-- Cancelled map environment. -/
def wEnvCancelled : MapEnv Nat := ⟨wCfg, wOracle, wCal, true⟩

/-- Map environment with a batch prompt and a PDF key both configured. -/
def wEnvBatchPdf : MapEnv Nat :=
  ⟨{ wCfg with batchPrompt := some "bp", pdfUrlKey := some "url" },
   wOracle, wCal, false⟩

/-- Two facets writing the same key `"a"`: facet `i` outputs `{"a": i}`
at cost 1. -/
def wPOracle : PMapOracle Nat :=
  { render := fun t _ => .ok t
    fetchPdf := fun _ => .ok "pdfdata"
    facetCall := fun _ i => .ok ⟨0, .ok [("a", i)]⟩
    obsEmpty := 0
    obsAdd := fun b _ _ => b }

/-- Two-facet parallel-map configuration over output key `"a"`. -/
def wPCfg : PMapConfig :=
  { prompts := some [⟨"p0", ["a"]⟩, ⟨"p1", ["a"]⟩], dropKeys := none,
    pdfUrlKey := none, enableObservability := false, name := "pm" }

/-- Baseline parallel-map environment. -/
def wPEnv : PMapEnv Nat := ⟨wPCfg, wPOracle, false⟩

/-- Parallel-map environment with the shared cancellation flag set and a
single facet; `execute` never reads the flag. -/
def wPEnvCancelled : PMapEnv Nat :=
  ⟨{ wPCfg with prompts := some [⟨"p0", ["a"]⟩] },
   { wPOracle with facetCall := fun _ _ => .ok ⟨2, .ok [("a", 7)]⟩ },
   true⟩

/-- Drop-only parallel-map environment. -/
def wPEnvDrop : PMapEnv Nat :=
  ⟨{ wPCfg with prompts := none, dropKeys := some ["b"] }, wPOracle, false⟩

/-- Raw parallel-map config whose single facet covers the schema key
`"a"` and also outputs the extra key `"b"` not in the schema. -/
def wRawCfgExtra : PMapRawConfig :=
  { dropKeys := none,
    prompts := some [⟨some "t", some ["a", "b"], true⟩],
    outputSchemaKeys := ["a"] }

/-- Raw parallel-map config with an uncovered schema key `"c"`. -/
def wRawCfgGap : PMapRawConfig :=
  { dropKeys := none,
    prompts := some [⟨some "t", some ["a"], true⟩],
    outputSchemaKeys := ["a", "c"] }

/-- Decidable equality for `Except`, used to evaluate the embedding on
concrete fixtures. -/
instance exceptDecEq {e a : Type} [DecidableEq e] [DecidableEq a] :
    DecidableEq (Except e a) := fun x y =>
  match x, y with
  | .ok v, .ok w =>
    if h : v = w then isTrue (by rw [h])
    else isFalse (fun hh => h (Except.ok.inj hh))
  | .ok _, .error _ => isFalse (fun hh => Except.noConfusion hh)
  | .error _, .ok _ => isFalse (fun hh => Except.noConfusion hh)
  | .error v, .error w =>
    if h : v = w then isTrue (by rw [h])
    else isFalse (fun hh => h (Except.error.inj hh))

theorem dictGet_eq_none_of_not_mem {V : Type} {d : Dict V} {k : String}
    (h : k ∉ d.map Prod.fst) : dictGet d k = none := by
  induction d with
  | nil => rfl
  | cons kv rest ih =>
    simp only [List.map_cons, List.mem_cons] at h
    push_neg at h
    simp only [dictGet]
    rw [if_neg (fun hh => h.1 hh.symm), ih h.2]

theorem dictGet_dictSet {V : Type} (d : Dict V) (k k2 : String) (v : V) :
    dictGet (dictSet d k v) k2 = if k2 = k then some v else dictGet d k2 := by
  induction d with
  | nil =>
    by_cases h : k2 = k
    · subst h; simp [dictSet, dictGet]
    · simp [dictSet, dictGet, h, Ne.symm h]
  | cons kv rest ih =>
    obtain ⟨k3, v3⟩ := kv
    by_cases h3 : k3 = k
    · subst h3
      by_cases h : k2 = k3
      · subst h; simp [dictSet, dictGet]
      · simp [dictSet, dictGet, h, Ne.symm h]
    · by_cases h : k3 = k2
      · subst h
        simp [dictSet, dictGet, h3, Ne.symm h3]
      · simp [dictSet, dictGet, h3, h, ih]

theorem dictGet_dictUpdate {V : Type} (d o : Dict V) (k : String)
    (hnd : (o.map Prod.fst).Nodup) :
    dictGet (dictUpdate d o) k =
      match dictGet o k with
      | some v => some v
      | none => dictGet d k := by
  induction o generalizing d with
  | nil => rfl
  | cons kv rest ih =>
    obtain ⟨k1, v1⟩ := kv
    simp only [List.map_cons, List.nodup_cons] at hnd
    have step : dictUpdate d ((k1, v1) :: rest) =
        dictUpdate (dictSet d k1 v1) rest := rfl
    rw [step, ih _ hnd.2]
    by_cases h : k1 = k
    · subst h
      have hrest : dictGet rest k1 = none := dictGet_eq_none_of_not_mem hnd.1
      simp [dictGet, hrest, dictGet_dictSet]
    · simp only [dictGet]
      rw [if_neg h]
      cases hr : dictGet rest k with
      | some v => rfl
      | none =>
        simp only [dictGet_dictSet]
        rw [if_neg (fun hh => h hh.symm)]

theorem dictGet_foldl_dictUpdate {V : Type} (base : Dict V)
    (os : List (Dict V)) (k : String)
    (hnd : ∀ o ∈ os, (o.map Prod.fst).Nodup) :
    dictGet (List.foldl dictUpdate base os) k = lwGet base os k := by
  induction os generalizing base with
  | nil => rfl
  | cons o rest ih =>
    have hndo : (o.map Prod.fst).Nodup := hnd o (List.mem_cons_self o rest)
    have hndr : ∀ o2 ∈ rest, (o2.map Prod.fst).Nodup :=
      fun o2 hm => hnd o2 (List.mem_cons_of_mem o hm)
    simp only [List.foldl_cons]
    rw [ih (dictUpdate base o) hndr]
    simp only [lwGet, List.foldl_cons]
    congr 1
    rw [dictGet_dictUpdate base o k hndo]

theorem dictDropKeys_idem {V : Type} (d : Dict V) (ks : List String) :
    dictDropKeys (dictDropKeys d ks) ks = dictDropKeys d ks := by
  induction d with
  | nil => rfl
  | cons kv rest ih =>
    simp only [dictDropKeys] at ih ⊢
    rw [List.filter_cons]
    by_cases h : (!ks.contains kv.1) = true
    · rw [if_pos h, List.filter_cons, if_pos h, ih]
    · rw [if_neg h, ih]

theorem traceCost_append (a b : List Issued) :
    traceCost (a ++ b) = traceCost a + traceCost b := by
  simp [traceCost, List.map_append, List.sum_append]

theorem runBatchesFlushesNil {V : Type} (env : MapEnv V) (wp : Option String)
    (h2 : env.cfg.flushPartialResults = false) :
    ∀ idx bs, (runBatches env wp idx bs).flushes = [] := by
  intro idx bs
  induction bs generalizing idx with
  | nil => rfl
  | cons b rest ih =>
    simp only [runBatches]
    cases hpr : (processMapBatch env wp b).1 with
    | error e => simp [hpr]
    | ok p =>
      obtain ⟨rlist, c⟩ := p
      simp [hpr, h2, ih]

/-- C3: with `drop_keys` configured and no prompt (resp. no prompts), both
`MapOperation.execute` and `ParallelMapOperation.execute` return one record
per input record — the input record minus the dropped keys — in input
order, at total cost 0, with no model invocation (and no flush). -/
theorem dropOnlyExecuteSpec {V : Type} (envM : MapEnv V) (envP : PMapEnv V)
    (input : List (Dict V)) (dkM dkP : List String)
    (h1 : envM.cfg.prompt = none) (h2 : envM.cfg.dropKeys = some dkM)
    (h3 : envP.cfg.prompts = none) (h4 : envP.cfg.dropKeys = some dkP) :
    mapExecute envM input =
      ⟨.ok (input.map (fun it => dictDropKeys it dkM), 0), [], []⟩ ∧
    pmapExecute envP input =
      (.ok (input.map (fun it => dictDropKeys it dkP), 0), []) := by
  constructor
  · simp [mapExecute, h1, h2]
  · simp [pmapExecute, h3, h4]

/-- Witness for C3 on a concrete record: dropping `"b"` keeps `"a"`. -/
theorem dropOnlyExecuteSpecWitness :
    mapExecute wEnvDrop [[("a", 1), ("b", 2)]] =
      ⟨.ok ([[("a", 1), ("b", 2)]].map (fun it => dictDropKeys it ["b"]), 0),
       [], []⟩ ∧
    pmapExecute wPEnvDrop [[("a", 1), ("b", 2)]] =
      (.ok ([[("a", 1), ("b", 2)]].map (fun it => dictDropKeys it ["b"]), 0),
       []) :=
  dropOnlyExecuteSpec wEnvDrop wPEnvDrop [[("a", 1), ("b", 2)]] ["b"] ["b"]
    rfl rfl rfl rfl

/-- C4: the drop-only transformation is idempotent — running
`MapOperation.execute` again on the output of a drop-only run reproduces
exactly the same output (and cost 0). -/
theorem dropOnlyIdempotent {V : Type} (env : MapEnv V)
    (input out : List (Dict V)) (c : ℚ) (dks : List String)
    (h1 : env.cfg.prompt = none) (h2 : env.cfg.dropKeys = some dks)
    (hok : (mapExecute env input).result = .ok (out, c)) :
    mapExecute env out = mapExecute env input := by
  have hfast : mapExecute env input =
      ⟨.ok (input.map (fun it => dictDropKeys it dks), 0), [], []⟩ := by
    simp [mapExecute, h1, h2]
  rw [hfast] at hok
  have h5 := Except.ok.inj hok
  have hout : out = input.map (fun it => dictDropKeys it dks) :=
    (congrArg Prod.fst h5).symm
  have hfast2 : mapExecute env out =
      ⟨.ok (out.map (fun it => dictDropKeys it dks), 0), [], []⟩ := by
    simp [mapExecute, h1, h2]
  rw [hfast, hfast2, hout]
  simp [List.map_map, Function.comp, dictDropKeys_idem]

/-- Witness for C4 on a concrete record list. -/
theorem dropOnlyIdempotentWitness :
    mapExecute wEnvDrop [[("a", 1)]] = mapExecute wEnvDrop [[("a", 1), ("b", 2)]] :=
  dropOnlyIdempotent wEnvDrop [[("a", 1), ("b", 2)]] [[("a", 1)]] 0 ["b"]
    rfl rfl (by decide)

/-- C10: in `_process_map_batch`, a batch of more than one item with both a
(truthy) `batch_prompt` and a (truthy) `pdf_url_key` configured raises
`ValueError` before issuing any model call (empty invocation trace). -/
theorem batchPromptPdfMutuallyExclusive {V : Type} (env : MapEnv V)
    (wp : Option String) (items : List (Dict V)) (bp pk : String)
    (hbp : env.cfg.batchPrompt = some bp) (hbpne : bp ≠ "")
    (hpdf : env.cfg.pdfUrlKey = some pk) (hpkne : pk ≠ "")
    (hlen : 1 < items.length) :
    processMapBatch env wp items = (.error .valueError, []) := by
  simp [processMapBatch, hbp, hbpne, hpdf, hpkne, hlen]

/-- Witness for C10 on a concrete two-item batch. -/
theorem batchPromptPdfMutuallyExclusiveWitness :
    processMapBatch wEnvBatchPdf (some "p") [[("u", 1)], [("u", 2)]] =
      (.error .valueError, []) :=
  batchPromptPdfMutuallyExclusive wEnvBatchPdf (some "p")
    [[("u", 1)], [("u", 2)]] "bp" "url" rfl (by decide) rfl (by decide)
    (by decide)

/-- C5 (bug exhibit): the pydantic schema of `MapOperation` declares the
flag `flush_partial_result` (map.py line 45), but `execute` reads the
distinct raw key `"flush_partial_results"` (line 533); hence with the
declared flag set (and the undeclared plural key absent, i.e. falsy) no
batch is ever handed to `_flush_partial_results`, whatever the input. -/
theorem flushPartialResultFlagIneffective {V : Type} (env : MapEnv V)
    (input : List (Dict V))
    (h1 : env.cfg.flushPartialResult = true)
    (h2 : env.cfg.flushPartialResults = false) :
    (mapExecute env input).flushes = [] := by
  have hmain : (mapExecuteMain env input).flushes = [] := by
    unfold mapExecuteMain
    split
    · rfl
    · exact runBatchesFlushesNil env _ h2 0 _
  unfold mapExecute
  split
  · rfl
  · exact hmain
  · exact hmain

/-- Witness for C5: a run with `flush_partial_result = true` that produces
a nonempty batch result still flushes nothing. -/
theorem flushPartialResultFlagIneffectiveWitness :
    (mapExecute wEnvFlush [[("x", 0)]]).flushes = [] :=
  flushPartialResultFlagIneffective wEnvFlush [[("x", 0)]] rfl rfl

/-- C6 (counterexample): a calibration pass that raises (here the
recursive sample run at map.py line 99 throws) aborts the whole
`execute` run — the failure is not swallowed. -/
theorem calibrationRaiseAbortsRun :
    wEnvCalRaise.cfg.calibrate = true ∧
    (mapExecute wEnvCalRaise [[("x", 0)]]).result = .error .otherErr :=
  ⟨rfl, by decide⟩

/-- C6 (amended): when the calibration pass completes but yields no usable
text (empty context, covering both the missing `response` attribute and an
empty parsed context), `execute` continues into the normal batch run with
the unaugmented original prompt. -/
theorem calibrationNoTextContinuesUnaugmented {V : Type} (env : MapEnv V)
    (input : List (Dict V)) (p : String)
    (hp : env.cfg.prompt = some p)
    (hcal : genCalibrationContext env.cal = .ok "") :
    mapExecute env input =
      runBatches env (some p) 0
        (batchesOf (env.cfg.maxBatchSize.getD 1) input) := by
  cases hb : env.cfg.calibrate with
  | false => simp [mapExecute, mapExecuteMain, hp, hb]
  | true => simp [mapExecute, mapExecuteMain, hp, hb, hcal]

/-- Witness for C6 on a concrete environment with calibration enabled and
a no-text calibration result. -/
theorem calibrationNoTextContinuesUnaugmentedWitness :
    mapExecute wEnvCalNoText [[("x", 0)]] =
      runBatches wEnvCalNoText (some "p") 0
        (batchesOf (wEnvCalNoText.cfg.maxBatchSize.getD 1) [[("x", 0)]]) :=
  calibrationNoTextContinuesUnaugmented wEnvCalNoText [[("x", 0)]] "p" rfl rfl

/-- C8 (counterexample): `ParallelMapOperation.execute` never reads the
shared cancellation flag — with the flag set, the facet invocation is
still issued and the run completes normally instead of raising. -/
theorem pmapFacetIgnoresCancellation :
    wPEnvCancelled.isCancelled = true ∧
    (pmapExecute wPEnvCancelled [[("x", 0)]]).2 =
      [⟨"parallel_map", some 2⟩] ∧
    (pmapExecute wPEnvCancelled [[("x", 0)]]).1 =
      .ok ([[("x", 0), ("a", 7)]], 2) :=
  ⟨rfl, by decide, by
    simp [pmapExecute, wPEnvCancelled, wPCfg, wPOracle, runPMapItems,
      runFacets, processPrompt, buildPMapMsg, dictUpdate, dictSet,
      List.enum]⟩

/-- C8 (amended): `MapOperation`'s item task polls the shared cancellation
flag after rendering and before `call_llm` (map.py line 357): with the
flag set it raises `asyncio.CancelledError` and issues no invocation. -/
theorem mapItemPollsCancellationBeforeCall {V : Type} (env : MapEnv V)
    (item : Dict V) (initRes : Option (Dict V)) (tpl prompt : String)
    (hc : env.isCancelled = true)
    (hr : env.oracle.render tpl item = .ok prompt)
    (hpdf : env.cfg.pdfUrlKey = none) :
    processMapItem env (some tpl) item initRes = (.error .cancelled, []) := by
  simp [processMapItem, hr, buildMapMsg, hpdf, hc]

/-- Witness for C8's amended theorem on a concrete cancelled environment. -/
theorem mapItemPollsCancellationBeforeCallWitness :
    processMapItem wEnvCancelled (some "p") [("x", 0)] none =
      (.error .cancelled, []) :=
  mapItemPollsCancellationBeforeCall wEnvCancelled [("x", 0)] none "p" "p"
    rfl rfl rfl

theorem stringContainsIff (l : List String) (a : String) :
    l.contains a = true ↔ a ∈ l := List.elem_iff

/-- C7 (counterexample): a facet whose `output_keys` strictly exceed the
schema key set passes `syntax_check` — the union of output keys differs
from the schema key set, yet no error is raised, refuting the claimed
"if and only if the union equals the schema key set". -/
theorem syntaxCheckAcceptsExtraFacetKeys :
    syntaxCheckPM wRawCfgExtra = .ok () ∧
    "b" ∈ coveredKeys (wRawCfgExtra.prompts.getD []) ∧
    "b" ∉ wRawCfgExtra.outputSchemaKeys := by
  refine ⟨by decide, by decide, by decide⟩

/-- C7 (amended): for a configuration whose `prompts` list is nonempty and
passes the per-facet checks, `syntax_check` succeeds if and only if every
output-schema key is covered by some facet's `output_keys` (subset, not
equality: extra facet keys outside the schema are accepted). -/
theorem syntaxCheckOkIffSchemaCovered (c : PMapRawConfig)
    (fs : List RawFacet) (hfs : c.prompts = some fs) (hne : fs ≠ [])
    (hfacets : checkFacets fs = .ok ()) :
    syntaxCheckPM c = .ok () ↔
      ∀ k ∈ c.outputSchemaKeys, k ∈ coveredKeys fs := by
  have hem : fs.isEmpty = false := by
    cases fs with
    | nil => exact absurd rfl hne
    | cons f rest => rfl
  simp only [syntaxCheckPM, hfs, hem, Bool.false_eq_true, if_false, hfacets]
  cases hany : c.outputSchemaKeys.any
      (fun k => !((coveredKeys fs).contains k)) with
  | true =>
    rw [if_pos rfl]
    constructor
    · intro h; exact absurd h (by simp)
    · intro hall
      obtain ⟨k, hk, hkc⟩ := List.any_eq_true.mp hany
      rw [Bool.not_eq_true'] at hkc
      have hm : k ∈ coveredKeys fs := hall k hk
      rw [← stringContainsIff] at hm
      rw [hm] at hkc
      exact absurd hkc (by simp)
  | false =>
    rw [if_neg (by simp)]
    constructor
    · intro _ k hk
      have := List.any_eq_false.mp hany k hk
      rw [Bool.not_eq_true', Bool.not_eq_false] at this
      exact (stringContainsIff _ _).mp this
    · intro _; rfl

/-- Witness for C7's amended theorem: the gap configuration (schema keys
`a, c`, single facet covering only `a`) fails the check, matching the
uncovered key `c`. -/
theorem syntaxCheckOkIffSchemaCoveredWitness :
    syntaxCheckPM wRawCfgGap = .ok () ↔
      ∀ k ∈ wRawCfgGap.outputSchemaKeys,
        k ∈ coveredKeys [⟨some "t", some ["a"], true⟩] :=
  syntaxCheckOkIffSchemaCovered wRawCfgGap [⟨some "t", some ["a"], true⟩]
    rfl (by decide) (by decide)

theorem traceCost_cons (i : Issued) (t : List Issued) :
    traceCost (i :: t) = i.cost.getD 0 + traceCost t := by
  simp [traceCost]

theorem processMapItemTrace {V : Type} (env : MapEnv V) (wp : Option String)
    (item : Dict V) (initRes : Option (Dict V))
    (Hpost : ∀ msg ir r, env.oracle.itemCall msg ir = .ok r →
      r.validated = true → ∃ outs, r.parsedOutputs = .ok outs) :
    (∀ o c, (processMapItem env wp item initRes).1 = .ok (o, c) →
      (processMapItem env wp item initRes).2 = [⟨"map", some c⟩]) ∧
    (∀ e, (processMapItem env wp item initRes).1 = .error e →
      traceCost (processMapItem env wp item initRes).2 = 0) := by
  unfold processMapItem
  cases wp with
  | none => simp [traceCost]
  | some tpl =>
    cases hr : env.oracle.render tpl item with
    | error e => simp [hr, traceCost]
    | ok prompt =>
      cases hm : buildMapMsg env item prompt with
      | error e => simp [hr, hm, traceCost]
      | ok msg =>
        cases hc : env.isCancelled with
        | true => simp [hr, hm, hc, traceCost]
        | false =>
          cases hcall : env.oracle.itemCall msg initRes with
          | error e => simp [hr, hm, hc, hcall, traceCost]
          | ok r =>
            cases hv : r.validated with
            | false => simp [hr, hm, hc, hcall, hv]
            | true =>
              obtain ⟨outs, hout⟩ := Hpost msg initRes r hcall hv
              simp [hr, hm, hc, hcall, hv, hout]

theorem processItemsCost {V : Type} (env : MapEnv V) (wp : Option String)
    (Hpost : ∀ msg ir r, env.oracle.itemCall msg ir = .ok r →
      r.validated = true → ∃ outs, r.parsedOutputs = .ok outs) :
    ∀ pairs rs c, (processItems env wp pairs).1 = .ok (rs, c) →
      c = traceCost (processItems env wp pairs).2 := by
  intro pairs
  induction pairs with
  | nil =>
    intro rs c h
    simp only [processItems, Except.ok.injEq, Prod.mk.injEq] at h
    simp [processItems, traceCost, ← h.2]
  | cons p rest ih =>
    obtain ⟨item, initRes⟩ := p
    intro rs c h
    have tr := processMapItemTrace env wp item initRes Hpost
    simp only [processItems] at h ⊢
    cases hpr : (processMapItem env wp item initRes).1 with
    | ok oc =>
      obtain ⟨o, c0⟩ := oc
      have htr := tr.1 o c0 hpr
      cases hnxt : (processItems env wp rest).1 with
      | error e =>
        cases o <;> simp only [hpr, hnxt] at h <;> exact absurd h (by simp)
      | ok rt =>
        obtain ⟨rs2, tc⟩ := rt
        have h2 := ih rs2 tc hnxt
        cases o with
        | some outs =>
          simp only [hpr, hnxt, Except.ok.injEq, Prod.mk.injEq] at h
          simp only [hpr]
          rw [← h.2, traceCost_append, htr, traceCost_cons, ← h2]
          simp [traceCost]
        | none =>
          simp only [hpr, hnxt, Except.ok.injEq, Prod.mk.injEq] at h
          simp only [hpr]
          rw [← h.2, traceCost_append, htr, traceCost_cons, ← h2]
          simp [traceCost]
    | error e =>
      have h0 := tr.2 e hpr
      by_cases hs : env.cfg.skipOnError ∧ e ≠ Err.cancelled
      · simp only [hpr, if_pos hs] at h
        have h2 := ih rs c h
        simp only [hpr, if_pos hs]
        rw [traceCost_append, h0, h2]
        simp
      · simp only [hpr, if_neg hs] at h
        exact absurd h (by simp)

theorem processMapBatchCost {V : Type} (env : MapEnv V) (wp : Option String)
    (Hpost : ∀ msg ir r, env.oracle.itemCall msg ir = .ok r →
      r.validated = true → ∃ outs, r.parsedOutputs = .ok outs) :
    ∀ items rs c, (processMapBatch env wp items).1 = .ok (rs, c) →
      c = traceCost (processMapBatch env wp items).2 := by
  intro items rs c h
  simp only [processMapBatch] at h ⊢
  cases hbp : env.cfg.batchPrompt with
  | none =>
    simp only [hbp] at h ⊢
    exact processItemsCost env wp Hpost _ rs c h
  | some bp =>
    by_cases hcond : 1 < items.length ∧ bp ≠ ""
    · simp only [hbp, if_pos hcond] at h ⊢
      by_cases hpdf : env.cfg.pdfUrlKey.isSome ∧ env.cfg.pdfUrlKey ≠ some ""
      · simp only [if_pos hpdf] at h
        exact absurd h (by simp)
      · simp only [if_neg hpdf] at h ⊢
        cases hrb : env.oracle.renderBatch bp items with
        | error e => simp only [hrb] at h; exact absurd h (by simp)
        | ok bprompt =>
          simp only [hrb] at h ⊢
          cases hbc : env.oracle.batchCall bprompt with
          | error e => simp only [hbc] at h; exact absurd h (by simp)
          | ok br =>
            simp only [hbc] at h ⊢
            cases hpar : br.parsed with
            | error e => simp only [hpar] at h; exact absurd h (by simp)
            | ok parsed =>
              simp only [hpar] at h ⊢
              cases hpi : (processItems env wp
                  (items.enum.map (fun p => (p.2, parsed.get? p.1)))).1 with
              | error e => simp only [hpi] at h; exact absurd h (by simp)
              | ok rt =>
                obtain ⟨allr, tc⟩ := rt
                simp only [hpi, Except.ok.injEq, Prod.mk.injEq] at h
                have h2 := processItemsCost env wp Hpost _ allr tc hpi
                rw [← h.2, traceCost_cons, ← h2]
                simp
    · simp only [hbp, if_neg hcond] at h ⊢
      exact processItemsCost env wp Hpost _ rs c h

theorem runBatchesCost {V : Type} (env : MapEnv V) (wp : Option String)
    (Hpost : ∀ msg ir r, env.oracle.itemCall msg ir = .ok r →
      r.validated = true → ∃ outs, r.parsedOutputs = .ok outs) :
    ∀ idx bs rs c, (runBatches env wp idx bs).result = .ok (rs, c) →
      c = traceCost (runBatches env wp idx bs).issued := by
  intro idx bs
  induction bs generalizing idx with
  | nil =>
    intro rs c h
    simp only [runBatches, Except.ok.injEq, Prod.mk.injEq] at h
    simp [runBatches, traceCost, ← h.2]
  | cons b rest ih =>
    intro rs c h
    simp only [runBatches] at h ⊢
    cases hpr : (processMapBatch env wp b).1 with
    | error e => simp only [hpr] at h; exact absurd h (by simp)
    | ok rc =>
      obtain ⟨rlist, c0⟩ := rc
      cases hnxt : (runBatches env wp (idx + 1) rest).result with
      | error e => simp only [hpr, hnxt] at h; exact absurd h (by simp)
      | ok rt =>
        obtain ⟨rs2, tc⟩ := rt
        simp only [hpr, hnxt, Except.ok.injEq, Prod.mk.injEq] at h
        have h1 := processMapBatchCost env wp Hpost b rlist c0 hpr
        have h2 := ih (idx + 1) rs2 tc hnxt
        simp only [hpr]
        rw [← h.2, traceCost_append, ← h1, ← h2]

/-- Case split of `MapOperation.execute`: either the drop-only fast path
fired, or the run went through the main (calibration + batches) path. -/
theorem mapExecuteCases {V : Type} (env : MapEnv V) (input : List (Dict V)) :
    mapExecute env input = mapExecuteMain env input ∨
    ∃ dks, mapExecute env input =
      ⟨.ok (input.map (fun it => dictDropKeys it dks), 0), [], []⟩ := by
  unfold mapExecute
  rcases env.cfg.prompt with _ | p <;> rcases env.cfg.dropKeys with _ | dks
  · exact .inl rfl
  · exact .inr ⟨dks, rfl⟩
  · exact .inl rfl
  · exact .inl rfl

/-- C1 (amended): with calibration disabled, whenever
`MapOperation.execute` returns, the returned total cost equals the sum of
the `total_cost` values of every model invocation it issued — including
invocations whose result failed validation (they contribute no records
but their cost), and including runs with `skip_on_error` — provided no
item task raises after its model call returned (i.e. every validated call
parses); a post-call raise swallowed by `skip_on_error` loses that call's
cost. -/
theorem mapExecuteCostEqTraceCost {V : Type} (env : MapEnv V)
    (input : List (Dict V)) (rs : List (Dict V)) (c : ℚ)
    (hcal : env.cfg.calibrate = false)
    (Hpost : ∀ msg ir r, env.oracle.itemCall msg ir = .ok r →
      r.validated = true → ∃ outs, r.parsedOutputs = .ok outs)
    (hok : (mapExecute env input).result = .ok (rs, c)) :
    c = traceCost (mapExecute env input).issued := by
  rcases mapExecuteCases env input with heq | ⟨dks, heq⟩
  · rw [heq] at hok ⊢
    simp only [mapExecuteMain, hcal, Bool.false_and, Bool.false_eq_true,
      if_false] at hok ⊢
    exact runBatchesCost env _ Hpost 0 _ rs c hok
  · rw [heq] at hok ⊢
    simp only [Except.ok.injEq, Prod.mk.injEq] at hok
    simp [traceCost, ← hok.2]

/-- C1 (counterexample): with `skip_on_error` set and a single item whose
call returns validated at cost 5 but whose response then fails to parse,
`execute` returns total cost 0 while the one invocation actually issued
cost 5 — the claimed equality fails. -/
theorem mapCostLostOnSkippedParseFailure :
    (mapExecute wEnvSkipParse [[("x", 0)]]).result = .ok ([], 0) ∧
    traceCost (mapExecute wEnvSkipParse [[("x", 0)]]).issued = 5 ∧
    (0 : ℚ) ≠ 5 := by
  refine ⟨?_, ?_, by decide⟩
  · simp [mapExecute, mapExecuteMain, wEnvSkipParse, wCfg, wOracle, wCal,
      runBatches, processMapBatch, processItems, processMapItem, buildMapMsg,
      batchesOf, genCalibrationContext]
  · simp [mapExecute, mapExecuteMain, wEnvSkipParse, wCfg, wOracle, wCal,
      runBatches, processMapBatch, processItems, processMapItem, buildMapMsg,
      batchesOf, genCalibrationContext, traceCost]

/-- Witness for C1's amended theorem on a concrete one-item run: the
returned cost 3 equals the traced invocation cost. -/
theorem mapExecuteCostEqTraceCostWitness :
    (3 : ℚ) = traceCost (mapExecute wEnv [[("x", 0)]]).issued :=
  mapExecuteCostEqTraceCost wEnv [[("x", 0)]] [[("x", 0), ("a", 1)]] 3 rfl
    (fun msg ir r h hv => ⟨[[("a", 1)]], by
      injection h with h2
      rw [← h2]⟩)
    (by simp [mapExecute, mapExecuteMain, wEnv, wCfg, wOracle, wCal,
      runBatches, processMapBatch, processItems, processMapItem, buildMapMsg,
      batchesOf, genCalibrationContext, dictUpdate, dictSet])

theorem runFacetsMerge {V : Type} (env : PMapEnv V) (item : Dict V)
    (hobs : env.cfg.enableObservability = false) :
    ∀ l acc d c, (runFacets env item l acc).1 = .ok (d, c) →
      d = List.foldl dictUpdate acc
        (l.filterMap (fun p => facetOutput env item p.1 p.2)) := by
  intro l
  induction l with
  | nil =>
    intro acc d c h
    simp only [runFacets, Except.ok.injEq, Prod.mk.injEq] at h
    simp [h.1]
  | cons hd tl ih =>
    obtain ⟨pIdx, pc⟩ := hd
    intro acc d c h
    simp only [runFacets] at h
    cases hpp : (processPrompt env item pIdx pc).1 with
    | error e => simp only [hpp] at h; exact absurd h (by simp)
    | ok opc =>
      obtain ⟨out, prompt, c0⟩ := opc
      simp only [hpp, hobs, Bool.false_eq_true, if_false] at h
      cases hnxt : (runFacets env item tl (dictUpdate acc out)).1 with
      | error e => simp only [hnxt] at h; exact absurd h (by simp)
      | ok dt =>
        obtain ⟨d2, tc⟩ := dt
        simp only [hnxt, Except.ok.injEq, Prod.mk.injEq] at h
        have h2 := ih (dictUpdate acc out) d2 tc hnxt
        have hfo : facetOutput env item pIdx pc = some out := by
          simp [facetOutput, hpp]
        simp only [List.filterMap_cons, hfo, List.foldl_cons]
        rw [← h.1]
        exact h2

theorem runPMapItemsSpec {V : Type} (env : PMapEnv V)
    (pcs : List FacetConfig) :
    ∀ inputL ds c, (runPMapItems env pcs inputL).1 = .ok (ds, c) →
      ds.length = inputL.length ∧
      ∀ j (hj : j < inputL.length) (hj2 : j < ds.length), ∃ cj,
        (runFacets env (inputL.get ⟨j, hj⟩) pcs.enum
          (inputL.get ⟨j, hj⟩)).1 = .ok (ds.get ⟨j, hj2⟩, cj) := by
  intro inputL
  induction inputL with
  | nil =>
    intro ds c h
    simp only [runPMapItems, Except.ok.injEq, Prod.mk.injEq] at h
    constructor
    · simp [← h.1]
    · intro j hj
      exact absurd hj (by simp)
  | cons item rest ih =>
    intro ds c h
    simp only [runPMapItems] at h
    cases hpr : (runFacets env item pcs.enum item).1 with
    | error e => simp only [hpr] at h; exact absurd h (by simp)
    | ok dc =>
      obtain ⟨d, c0⟩ := dc
      cases hnxt : (runPMapItems env pcs rest).1 with
      | error e => simp only [hpr, hnxt] at h; exact absurd h (by simp)
      | ok dst =>
        obtain ⟨ds2, tc⟩ := dst
        simp only [hpr, hnxt, Except.ok.injEq, Prod.mk.injEq] at h
        obtain ⟨hds, hc⟩ := h
        subst hds
        obtain ⟨hlen, hidx⟩ := ih ds2 tc hnxt
        constructor
        · simp [hlen]
        · intro j hj hj2
          cases j with
          | zero => exact ⟨c0, by simpa using hpr⟩
          | succ n =>
            have hj3 : n < rest.length := by simpa using hj
            have hj4 : n < ds2.length := by simpa using hj2
            obtain ⟨cj, hcj⟩ := hidx n hj3 hj4
            exact ⟨cj, by simpa using hcj⟩

/-- C2: whenever `ParallelMapOperation.execute` with a nonempty facet list
returns (here with observability off and no drop_keys), it returns exactly
one output record per input record, in input order: the `j`-th output is
the `j`-th input merged, via Python `dict.update`, with its facet outputs
in facet (submission) order — and the merge is last-writer-wins: the value
at a key is the one from the latest facet output containing it (falling
back to the source record), so the facet with the larger position in
`prompts` wins a collision. -/
theorem pmapExecuteOrderAndLastWriterWins {V : Type} (env : PMapEnv V)
    (input : List (Dict V)) (pcs : List FacetConfig)
    (out : List (Dict V)) (c : ℚ)
    (hp : env.cfg.prompts = some pcs) (hne : pcs ≠ [])
    (hobs : env.cfg.enableObservability = false)
    (hdrop : env.cfg.dropKeys = none)
    (hok : (pmapExecute env input).1 = .ok (out, c)) :
    out.length = input.length ∧
    (∀ j (hj : j < input.length) (hj2 : j < out.length),
      out.get ⟨j, hj2⟩ = List.foldl dictUpdate (input.get ⟨j, hj⟩)
        (facetOutputs env (input.get ⟨j, hj⟩) pcs)) ∧
    (∀ (base : Dict V) (os : List (Dict V)),
      (∀ o ∈ os, (o.map Prod.fst).Nodup) →
      ∀ k, dictGet (List.foldl dictUpdate base os) k = lwGet base os k) := by
  have hem : pcs.isEmpty = false := by
    cases pcs with
    | nil => exact absurd rfl hne
    | cons a b => rfl
  simp only [pmapExecute, hp, hem, Bool.false_eq_true, if_false] at hok
  cases hpr : (runPMapItems env pcs input).1 with
  | error e => simp only [hpr] at hok; exact absurd hok (by simp)
  | ok dsc =>
    obtain ⟨ds, c0⟩ := dsc
    simp only [hpr, hdrop, Except.ok.injEq, Prod.mk.injEq] at hok
    obtain ⟨hds, hc⟩ := hok
    subst hds
    obtain ⟨hlen, hidx⟩ := runPMapItemsSpec env pcs input ds c0 hpr
    refine ⟨hlen, ?_, ?_⟩
    · intro j hj hj2
      obtain ⟨cj, hcj⟩ := hidx j hj hj2
      exact runFacetsMerge env _ hobs pcs.enum _ _ cj hcj
    · intro base os hndos k
      exact dictGet_foldl_dictUpdate base os k hndos

/-- Witness for C2 on one record and two facets both writing key `"a"`:
facet 1 (the later one) wins the collision. -/
theorem pmapExecuteOrderAndLastWriterWinsWitness :
    ([[("x", 9), ("a", 1)]] : List (Dict Nat)).length =
      ([[("x", 9)]] : List (Dict Nat)).length ∧
    (∀ j (hj : j < ([[("x", 9)]] : List (Dict Nat)).length)
      (hj2 : j < ([[("x", 9), ("a", 1)]] : List (Dict Nat)).length),
      ([[("x", 9), ("a", 1)]] : List (Dict Nat)).get ⟨j, hj2⟩ =
        List.foldl dictUpdate (([[("x", 9)]] : List (Dict Nat)).get ⟨j, hj⟩)
          (facetOutputs wPEnv (([[("x", 9)]] : List (Dict Nat)).get ⟨j, hj⟩)
            [⟨"p0", ["a"]⟩, ⟨"p1", ["a"]⟩])) ∧
    (∀ (base : Dict Nat) (os : List (Dict Nat)),
      (∀ o ∈ os, (o.map Prod.fst).Nodup) →
      ∀ k, dictGet (List.foldl dictUpdate base os) k = lwGet base os k) :=
  pmapExecuteOrderAndLastWriterWins wPEnv [[("x", 9)]]
    [⟨"p0", ["a"]⟩, ⟨"p1", ["a"]⟩] [[("x", 9), ("a", 1)]] 0 rfl (by decide)
    rfl rfl
    (by simp [pmapExecute, wPEnv, wPCfg, wPOracle, runPMapItems, runFacets,
      processPrompt, buildPMapMsg, dictUpdate, dictSet, List.enum])

theorem heapRead_append {V : Type} (h : Heap V) (l2 : Heap V) (c : Nat)
    (hc : c < h.length) : heapRead (h ++ l2) c = heapRead h c := by
  simp only [heapRead, List.get?_eq_getElem?, List.getElem?_append_left hc]

theorem heapWrite_length {V : Type} (h : Heap V) (a : Nat) (d : Dict V) :
    (heapWrite h a d).length = h.length := by
  simp [heapWrite]

theorem heapRead_write_ne {V : Type} (h : Heap V) (a c : Nat) (d : Dict V)
    (hne : c ≠ a) : heapRead (heapWrite h a d) c = heapRead h c := by
  simp only [heapWrite, heapRead, List.get?_eq_getElem?,
    List.getElem?_set_ne (fun hh => hne hh.symm)]

theorem foldlWriteFrame {V β : Type} (b : Nat) (g : Heap V → β → Dict V) :
    ∀ (l : List β) (h : Heap V) (c : Nat), c ≠ b →
      heapRead (l.foldl (fun hh x => heapWrite hh b (g hh x)) h) c =
        heapRead h c := by
  intro l
  induction l with
  | nil => intro h c hc; rfl
  | cons x xs ih =>
    intro h c hc
    rw [List.foldl_cons, ih _ c hc, heapRead_write_ne _ _ _ _ hc]

theorem heapMergeStepSpec {V : Type} (a : Nat) (obsKV : Option (String × V))
    (h : Heap V) (o : Dict V) :
    (heapMergeStep a obsKV h o).length = h.length + 1 ∧
    ∀ c, c < h.length →
      heapRead (heapMergeStep a obsKV h o) c = heapRead h c := by
  cases obsKV with
  | none =>
    constructor
    · simp [heapMergeStep, heapAlloc]
    · intro c hc
      simp only [heapMergeStep, heapAlloc]
      exact heapRead_append h _ c hc
  | some kv =>
    constructor
    · simp [heapMergeStep, heapAlloc, heapWrite]
    · intro c hc
      simp only [heapMergeStep, heapAlloc]
      rw [heapRead_write_ne _ _ _ _ (by omega : c ≠ h.length)]
      exact heapRead_append h _ c hc

theorem heapMergeOutputsFrame {V : Type} (a : Nat)
    (obsKV : Option (String × V)) :
    ∀ (outs : List (Dict V)) (h : Heap V) (c : Nat), c < h.length →
      heapRead (heapMergeOutputs a obsKV h outs).1 c = heapRead h c := by
  intro outs
  induction outs with
  | nil => intro h c hc; rfl
  | cons o rest ih =>
    intro h c hc
    obtain ⟨hl, hr⟩ := heapMergeStepSpec a obsKV h o
    simp only [heapMergeOutputs]
    rw [ih (heapMergeStep a obsKV h o) c (by omega), hr c hc]

theorem heapDropResultsFrame {V : Type} (dks : List String) :
    ∀ (addrs : List Nat) (h : Heap V) (c : Nat), c < h.length →
      heapRead (heapDropResults dks h addrs).1 c = heapRead h c := by
  intro addrs
  induction addrs with
  | nil => intro h c hc; rfl
  | cons a rest ih =>
    intro h c hc
    simp only [heapDropResults, heapAlloc]
    rw [ih (h ++ [dictDropKeys (heapRead h a) dks]) c
      (by simpa using Nat.lt_succ_of_lt hc)]
    exact heapRead_append h _ c hc

theorem heapParallelItemFrame {V : Type} (h : Heap V) (a : Nat)
    (outs : List (Dict V)) (dks : List String) (c : Nat)
    (hc : c < h.length) :
    heapRead (heapParallelItem h a outs dks).1 c = heapRead h c := by
  have hb : c ≠ h.length := by omega
  simp only [heapParallelItem, heapAlloc]
  rw [foldlWriteFrame h.length
    (fun hh k => dictPop (heapRead hh h.length) k) dks _ c hb,
    foldlWriteFrame h.length
    (fun hh o => dictUpdate (heapRead hh h.length) o) outs _ c hb]
  exact heapRead_append h _ c hc

/-- C9: neither engine mutates its input records.  In the heap embedding
of the three record-constructing sites — the `{**item, **output}` merge
(plus observability write) of `_process_map_item`, the drop-keys
comprehensions, and the copy/update/pop sequence of
`ParallelMapOperation.execute` — every heap cell that existed before the
operation (in particular every input record) is unchanged afterwards: all
writes target freshly allocated dicts. -/
theorem executeNeverMutatesInputRecords {V : Type} :
    (∀ (h : Heap V) (a : Nat) (outs : List (Dict V))
      (obsKV : Option (String × V)) (c : Nat), c < h.length →
      heapRead (heapMergeOutputs a obsKV h outs).1 c = heapRead h c) ∧
    (∀ (dks : List String) (h : Heap V) (addrs : List Nat) (c : Nat),
      c < h.length →
      heapRead (heapDropResults dks h addrs).1 c = heapRead h c) ∧
    (∀ (h : Heap V) (a : Nat) (outs : List (Dict V)) (dks : List String)
      (c : Nat), c < h.length →
      heapRead (heapParallelItem h a outs dks).1 c = heapRead h c) :=
  ⟨fun h a outs obsKV c hc => heapMergeOutputsFrame a obsKV outs h c hc,
   fun dks h addrs c hc => heapDropResultsFrame dks addrs h c hc,
   fun h a outs dks c hc => heapParallelItemFrame h a outs dks c hc⟩

/-- Witness for C9 on a one-cell heap: the input record at address 0 is
untouched by all three operations. -/
theorem executeNeverMutatesInputRecordsWitness :
    heapRead (heapMergeOutputs 0 none [[("x", 1)]] [[("a", 2)]]).1 0 =
      heapRead ([[("x", 1)]] : Heap Nat) 0 ∧
    heapRead (heapDropResults ["b"] [[("x", 1)]] [0]).1 0 =
      heapRead ([[("x", 1)]] : Heap Nat) 0 ∧
    heapRead (heapParallelItem [[("x", 1)]] 0 [[("a", 2)]] ["b"]).1 0 =
      heapRead ([[("x", 1)]] : Heap Nat) 0 :=
  ⟨(executeNeverMutatesInputRecords (V := Nat)).1 [[("x", 1)]] 0 [[("a", 2)]]
      none 0 (by decide),
   (executeNeverMutatesInputRecords (V := Nat)).2.1 ["b"] [[("x", 1)]] [0] 0
      (by decide),
   (executeNeverMutatesInputRecords (V := Nat)).2.2 [[("x", 1)]] 0
      [[("a", 2)]] ["b"] 0 (by decide)⟩
